import Mathlib

/-!
Verification of the `newsyacht` feed reader against its specification.

The development is a shallow embedding of the Python sources:
* `models.py`  — `Item` construction (GUID fallback), `DbItem.from_row`,
  `Feed`, `DbFeed.update`;
* `db.py`      — the `items` table with its `UNIQUE(feed_id, guid)` upsert,
  `get_posts` / `_get_posts` (join, filters, `ORDER BY`);
* `scoring.py` — the Bayesian `Model` (`score`, `add_item`, `sigmoid`) and its
  persisted counters;
* `cli.py`     — the `update_feeds` ingestion loop and its error policy.

Machine floats are modelled over `ℝ` (scoring) and `ℚ` (stored scores, where
decidable comparisons are needed); SQLite tables are lists of row structures;
fallible constructors return `Except`.  Functions of the Python standard
library that the claims depend on (`hashlib.sha256().hexdigest()`,
`datetime.isoformat` / `fromisoformat`) are not part of the repository; they
are modelled from the spec, each with a doc comment saying exactly what is
assumed of them.
-/

namespace Newsyacht

/-- Python truthiness of an optional string: `None` and `""` are falsy,
any non-empty string is truthy.  This is the test performed by
`if self._raw_guid:`, `feed.title or self.title`, etc. -/
def truthy : Option String → Bool
  | none => false
  | some s => !(s == "")

/-- Python's `a or b` for optional strings: `b` when `a` is falsy. -/
def pyOr (a b : Option String) : Option String :=
  if truthy a then a else b

@[simp] theorem truthy_none : truthy none = false := rfl

theorem truthy_some (s : String) : truthy (some s) = !(s == "") := rfl

theorem truthy_iff (a : Option String) :
    truthy a = true ↔ a ≠ none ∧ a ≠ some "" := by
  cases a with
  | none => simp [truthy]
  | some s =>
    simp only [truthy, ne_eq, Bool.not_eq_eq_eq_not, Bool.not_true, beq_eq_false_iff_ne]
    constructor
    · intro h
      exact ⟨by simp, by simpa using h⟩
    · intro h
      simpa using h.2

/-! ## Datetimes

An aware Python `datetime` is modelled by the instant it denotes (in minutes,
relative to an arbitrary fixed epoch) together with its timezone offset.
`astimezone(UTC)` keeps the instant and moves the offset to `0`. -/

structure PyDatetime where
  minutes : Int
  offset : Int
deriving DecidableEq, Repr

/-- `d.astimezone(UTC)`: same instant, offset zero. -/
def astimezoneUTC (d : PyDatetime) : PyDatetime :=
  { minutes := d.minutes, offset := 0 }

/-! ### A concrete injective rendering of datetimes

`datetime.isoformat` / `datetime.fromisoformat` belong to the Python standard
library, not to this repository.  They are modelled from the spec by a concrete
pair of functions with the properties the library guarantees and the code
relies on: the rendering is a non-empty string determined by the datetime,
parsing is its left inverse, and parsing a string that is not a rendered
datetime fails (raises `ValueError` in Python, `none` here). -/

/-- The character for a decimal digit `d < 10`. -/
def digitCh (d : Nat) : Char := Char.ofNat (48 + d)

/-- The value of a decimal digit character. -/
def chVal (c : Char) : Nat := c.toNat - 48

/-- Decimal rendering of a natural number, most significant digit first. -/
def natChars (n : Nat) : List Char :=
  if n = 0 then ['0'] else ((Nat.digits 10 n).map digitCh).reverse

/-- Parse a non-empty all-digit character list as a natural number. -/
def parseNatChars (l : List Char) : Option Nat :=
  if l ≠ [] ∧ ∀ c ∈ l, c.isDigit then
    some (Nat.ofDigits 10 (l.reverse.map chVal))
  else none

/-- Decimal rendering of an integer (minus sign for negatives). -/
def intChars (i : Int) : List Char :=
  if i < 0 then '-' :: natChars i.natAbs else natChars i.natAbs

/-- Parse an optionally-sign-led digit list as an integer. -/
def parseIntChars : List Char → Option Int
  | [] => none
  | c :: rest =>
    if c = '-' then (parseNatChars rest).map (fun n => -(n : Int))
    else (parseNatChars (c :: rest)).map (fun n => (n : Int))

theorem digitCh_isDigit : ∀ d < 10, (digitCh d).isDigit = true := by decide

theorem chVal_digitCh : ∀ d < 10, chVal (digitCh d) = d := by decide

theorem natChars_ne_nil (n : Nat) : natChars n ≠ [] := by
  unfold natChars
  split
  · simp
  · next h =>
    simp only [ne_eq, List.reverse_eq_nil_iff, List.map_eq_nil_iff]
    exact Nat.digits_ne_nil_iff_ne_zero.mpr h

theorem natChars_all_digits (n : Nat) : ∀ c ∈ natChars n, c.isDigit := by
  intro c hc
  unfold natChars at hc
  split at hc
  · simp only [List.mem_singleton] at hc; subst hc; decide
  · rw [List.mem_reverse, List.mem_map] at hc
    obtain ⟨d, hd, rfl⟩ := hc
    exact digitCh_isDigit _ (Nat.digits_lt_base (by norm_num) hd)

theorem parseNatChars_natChars (n : Nat) : parseNatChars (natChars n) = some n := by
  unfold parseNatChars
  rw [if_pos ⟨natChars_ne_nil n, natChars_all_digits n⟩]
  congr 1
  unfold natChars
  split
  · next h => subst h; decide
  · rw [List.reverse_reverse, List.map_map]
    have : ((Nat.digits 10 n).map (chVal ∘ digitCh)) = Nat.digits 10 n := by
      apply List.map_congr_left ?_ |>.trans (List.map_id _)
      intro d hd
      exact chVal_digitCh _ (Nat.digits_lt_base (by norm_num) hd)
    rw [this, Nat.ofDigits_digits]

theorem parseIntChars_intChars (i : Int) : parseIntChars (intChars i) = some i := by
  unfold intChars
  split
  · next h =>
    rw [parseIntChars, if_pos rfl, parseNatChars_natChars]
    show some (-((i.natAbs : Nat) : Int)) = some i
    congr 1
    omega
  · next h =>
    obtain ⟨c, rest, hcr⟩ := List.exists_cons_of_ne_nil (natChars_ne_nil i.natAbs)
    have hcdig : c.isDigit := by
      apply natChars_all_digits i.natAbs
      rw [hcr]; exact List.mem_cons_self _ _
    have hcne : c ≠ '-' := by
      intro hh; subst hh; exact absurd hcdig (by decide)
    rw [hcr, parseIntChars, if_neg hcne, ← hcr, parseNatChars_natChars]
    show some (((i.natAbs : Nat) : Int)) = some i
    congr 1
    omega

/-- Modelled from the spec: `datetime.isoformat` (Python standard library,
absent from `src/`).  An injective rendering of the datetime as a non-empty
string: the instant, a `'+'`, then the offset.  The spec only relies on the
rendering being deterministic and invertible by `fromisoformat`. -/
def isoformat (d : PyDatetime) : String :=
  ⟨intChars d.minutes ++ '+' :: intChars d.offset⟩

/-- Modelled from the spec: `datetime.fromisoformat` (Python standard library,
absent from `src/`).  The left inverse of `isoformat`; any string that is not
a rendered datetime parses to `none` (Python raises `ValueError`). -/
def fromisoformat (s : String) : Option PyDatetime :=
  match s.data.dropWhile (fun c => c ≠ '+') with
  | '+' :: off =>
    match parseIntChars (s.data.takeWhile (fun c => c ≠ '+')), parseIntChars off with
    | some m, some o => some ⟨m, o⟩
    | _, _ => none
  | _ => none

theorem intChars_no_plus (i : Int) : ∀ c ∈ intChars i, c ≠ '+' := by
  intro c hc
  unfold intChars at hc
  have dig : ∀ c ∈ natChars i.natAbs, c ≠ '+' := by
    intro c hc heq
    have := natChars_all_digits i.natAbs c hc
    subst heq; exact absurd this (by decide)
  split at hc
  · rcases List.mem_cons.mp hc with h | h
    · subst h; decide
    · exact dig c h
  · exact dig c hc

theorem takeWhile_append_cons {p : α → Bool} {x : α} (a b : List α)
    (ha : ∀ c ∈ a, p c) (hx : p x = false) :
    (a ++ x :: b).takeWhile p = a ∧ (a ++ x :: b).dropWhile p = x :: b := by
  induction a with
  | nil => simp [List.takeWhile_cons, List.dropWhile_cons, hx]
  | cons c a ih =>
    have hc : p c = true := ha c (List.mem_cons_self _ _)
    have := ih (fun d hd => ha d (List.mem_cons_of_mem _ hd))
    simp [List.takeWhile_cons, List.dropWhile_cons, hc, this.1, this.2]

theorem isoformat_ne_empty (d : PyDatetime) : isoformat d ≠ "" := by
  unfold isoformat
  intro h
  have : intChars d.minutes ++ '+' :: intChars d.offset = ([] : List Char) :=
    congrArg String.data h
  simp at this

/-- The round trip the roundtripping claims rely on:
`fromisoformat (isoformat d) = d`. -/
theorem fromisoformat_isoformat (d : PyDatetime) :
    fromisoformat (isoformat d) = some d := by
  unfold fromisoformat isoformat
  have hplus : (fun c => decide (c ≠ '+')) '+' = false := by decide
  have h := takeWhile_append_cons (p := fun c => decide (c ≠ '+'))
    (intChars d.minutes) (intChars d.offset)
    (fun c hc => by simpa using intChars_no_plus d.minutes c hc) hplus
  simp only [h.1, h.2, parseIntChars_intChars]

/-! ## The data model of `models.py` -/

/-- Modelled from the spec: `hashlib.sha256(content).hexdigest()` (Python
standard library, absent from `src/`).  The spec only requires "a stable,
non-cryptographic use of a fast hash ... deterministic for identical
content"; any function of the content satisfies that, so the stand-in is a
simple polynomial string hash rendered in decimal. -/
def sha256hex (content : String) : String :=
  ⟨natChars (content.data.foldl (fun a c => (a * 131 + c.toNat) % 2 ^ 64) 0)⟩

/-- An `Item` as it exists after a successful `__post_init__`: `guid` is
always present, `date` is the parsed optional datetime. -/
structure Item where
  title : Option String
  content : Option String
  link : Option String
  author : Option String
  comments : Option String
  date : Option PyDatetime
  guid : String
deriving DecidableEq, Repr

/-- `Item(...)` construction including `Item.__post_init__` (`models.py`):
derive `guid` from `_raw_guid`, else `link`, else a hash of `content`, else
raise; then parse `_raw_date` when it is truthy (`datetime.fromisoformat`
raises on a malformed string). -/
def Item.make (title content link author comments raw_date raw_guid :
    Option String) : Except String Item := do
  let guid ←
    if truthy raw_guid then pure (raw_guid.getD "")
    else if truthy link then pure (link.getD "")
    else if truthy content then pure (sha256hex (content.getD ""))
    else Except.error "Item doesn't include a GUID, link, or contents"
  let date ←
    if truthy raw_date then
      match fromisoformat (raw_date.getD "") with
      | some d => pure (some d)
      | none => Except.error "Invalid isoformat string"
    else pure none
  pure { title := title, content := content, link := link, author := author,
         comments := comments, date := date, guid := guid }

/-- `Item.date_str` (`models.py`): the stored text of the date, normalized
to UTC first. -/
def Item.date_str (it : Item) : Option String :=
  it.date.map (fun d => isoformat (astimezoneUTC d))

/-- `item.thumbnail`, as read by `Db.insert_items` (`db.py` line 242):
`models.py`'s `Item` declares no `thumbnail` field and no `__getattr__`, so
the attribute lookup raises `AttributeError` on every `Item`. -/
def Item.thumbnail (it : Item) : Except String (Option String) :=
  Except.error "AttributeError: 'Item' object has no attribute 'thumbnail'"

/-- The raw fields of one feed entry, as extracted from the XML before
`Item` construction runs. -/
structure Entry where
  title : Option String
  content : Option String
  link : Option String
  author : Option String
  comments : Option String
  raw_date : Option String
  raw_guid : Option String
deriving DecidableEq, Repr

def Entry.toItem (e : Entry) : Except String Item :=
  Item.make e.title e.content e.link e.author e.comments e.raw_date e.raw_guid

/-- A parsed `Feed` (`models.py`). -/
structure Feed where
  title : Option String
  link : Option String
  description : Option String
  items : List Item
deriving Repr

/-- The item-construction stage of feed parsing (the loops of `_from_rss` /
`_from_atom`): each entry is turned into an `Item`; an exception from any
`Item` construction propagates and fails the whole parse. -/
def feedItems (entries : List Entry) : Except String (List Item) :=
  entries.mapM Entry.toItem

/-- A subscription as loaded from the `feeds` table (`models.py` `DbFeed`). -/
structure DbFeed where
  id : Nat
  url : String
  title : Option String
  description : Option String
  etag : Option String
  last_modified : Option String
deriving DecidableEq, Repr

/-- `DbFeed.update` (`models.py`): `self.title = feed.title or self.title`
and so on for `description`, `etag`, `last_modified`. -/
def DbFeed.update (f : DbFeed) (etag last_modified : Option String)
    (feed : Feed) : DbFeed :=
  { f with
    title := pyOr feed.title f.title
    description := pyOr feed.description f.description
    etag := pyOr etag f.etag
    last_modified := pyOr last_modified f.last_modified }

theorem truthy_false_iff (a : Option String) :
    truthy a = false ↔ a = none ∨ a = some "" := by
  rcases a with _ | s
  · simp [truthy]
  · simp only [truthy, Bool.not_eq_false', beq_iff_eq]
    constructor
    · intro h; right; rw [h]
    · rintro (h | h)
      · cases h
      · injection h

theorem pyOr_of_truthy {a : Option String} (b : Option String)
    (h : truthy a = true) : pyOr a b = a := by
  rw [pyOr, if_pos h]

theorem pyOr_of_falsy {a : Option String} (b : Option String)
    (h : truthy a = false) : pyOr a b = b := by
  rw [pyOr, if_neg (by rw [h]; simp)]

/-- C9: when a subscription's metadata is updated after a successful fetch
(`DbFeed.update`), each of `title`, `description`, `etag`, `last_modified` is
replaced exactly when the corresponding new value is a non-empty string; an
absent (`None`) or empty new value leaves the stored value unchanged. -/
theorem dbFeed_update_replaces_only_nonempty (f : DbFeed)
    (etag last_modified : Option String) (body : Feed) :
    ((body.title ≠ none ∧ body.title ≠ some "") →
      (f.update etag last_modified body).title = body.title) ∧
    ((body.title = none ∨ body.title = some "") →
      (f.update etag last_modified body).title = f.title) ∧
    ((body.description ≠ none ∧ body.description ≠ some "") →
      (f.update etag last_modified body).description = body.description) ∧
    ((body.description = none ∨ body.description = some "") →
      (f.update etag last_modified body).description = f.description) ∧
    ((etag ≠ none ∧ etag ≠ some "") →
      (f.update etag last_modified body).etag = etag) ∧
    ((etag = none ∨ etag = some "") →
      (f.update etag last_modified body).etag = f.etag) ∧
    ((last_modified ≠ none ∧ last_modified ≠ some "") →
      (f.update etag last_modified body).last_modified = last_modified) ∧
    ((last_modified = none ∨ last_modified = some "") →
      (f.update etag last_modified body).last_modified = f.last_modified) := by
  refine ⟨fun h => ?_, fun h => ?_, fun h => ?_, fun h => ?_,
          fun h => ?_, fun h => ?_, fun h => ?_, fun h => ?_⟩ <;>
    simp only [DbFeed.update]
  · exact pyOr_of_truthy _ ((truthy_iff _).mpr h)
  · exact pyOr_of_falsy _ ((truthy_false_iff _).mpr h)
  · exact pyOr_of_truthy _ ((truthy_iff _).mpr h)
  · exact pyOr_of_falsy _ ((truthy_false_iff _).mpr h)
  · exact pyOr_of_truthy _ ((truthy_iff _).mpr h)
  · exact pyOr_of_falsy _ ((truthy_false_iff _).mpr h)
  · exact pyOr_of_truthy _ ((truthy_iff _).mpr h)
  · exact pyOr_of_falsy _ ((truthy_false_iff _).mpr h)

/-- Witness for C9 at a concrete subscription: a non-empty new `etag` is
taken, an empty new title and an absent new `last_modified` keep the stored
values. -/
theorem dbFeed_update_replaces_only_nonempty_witness :
    (DbFeed.update ⟨1, "u", some "T", some "D", some "E", some "L"⟩
      (some "E2") none ⟨some "", none, some "D2", []⟩).title = some "T" ∧
    (DbFeed.update ⟨1, "u", some "T", some "D", some "E", some "L"⟩
      (some "E2") none ⟨some "", none, some "D2", []⟩).description = some "D2" ∧
    (DbFeed.update ⟨1, "u", some "T", some "D", some "E", some "L"⟩
      (some "E2") none ⟨some "", none, some "D2", []⟩).etag = some "E2" ∧
    (DbFeed.update ⟨1, "u", some "T", some "D", some "E", some "L"⟩
      (some "E2") none ⟨some "", none, some "D2", []⟩).last_modified = some "L" := by
  have h := dbFeed_update_replaces_only_nonempty
    ⟨1, "u", some "T", some "D", some "E", some "L"⟩ (some "E2") none
    ⟨some "", none, some "D2", []⟩
  exact ⟨h.2.1 (by simp), h.2.2.1 (by simp), h.2.2.2.2.1 (by simp),
         h.2.2.2.2.2.2.2 (by simp)⟩

/-! ## Claim C1: GUID derivation in `Item.__post_init__` -/

theorem except_bind_ok {ε α β : Type} (a : α) (f : α → Except ε β) :
    (Except.ok a : Except ε α).bind f = f a := rfl

theorem except_bind_error {ε α β : Type} (e : ε) (f : α → Except ε β) :
    (Except.error e : Except ε α).bind f = Except.error e := rfl

/-- `Item.make` written out as explicit `Except.bind`s of its two stages. -/
theorem item_make_eq (t c l a cm rd rg : Option String) :
    Item.make t c l a cm rd rg =
      (if truthy rg then Except.ok (rg.getD "")
       else if truthy l then Except.ok (l.getD "")
       else if truthy c then Except.ok (sha256hex (c.getD ""))
       else Except.error "Item doesn't include a GUID, link, or contents").bind
      (fun guid =>
        (if truthy rd then
          match fromisoformat (rd.getD "") with
          | some d => Except.ok (some d)
          | none => Except.error "Invalid isoformat string"
         else Except.ok none).bind
        (fun date =>
          Except.ok ⟨t, c, l, a, cm, date, guid⟩)) := by
  unfold Item.make
  cases hrg : truthy rg <;> cases hl : truthy l <;> cases hc : truthy c <;>
    cases hrd : truthy rd <;> try rfl
  all_goals rcases hfi : fromisoformat (rd.getD "") with _ | d <;> rfl

/-- An entry with no truthy GUID, link or content. -/
def noIdentity (e : Entry) : Prop :=
  truthy e.raw_guid = false ∧ truthy e.link = false ∧ truthy e.content = false

/-- Without any identity source the constructor raises before ever looking at
the date. -/
theorem entry_toItem_error_of_noIdentity {e : Entry} (h : noIdentity e) :
    Entry.toItem e =
      Except.error "Item doesn't include a GUID, link, or contents" := by
  rw [Entry.toItem, item_make_eq, h.1, h.2.1, h.2.2]
  rfl

theorem feedItems_error_of_mem {entries : List Entry} {e : Entry}
    (hmem : e ∈ entries) (hbad : noIdentity e) :
    ∃ m, feedItems entries = Except.error m := by
  induction entries with
  | nil => cases hmem
  | cons x xs ih =>
    rw [feedItems, List.mapM_cons]
    rcases List.mem_cons.mp hmem with rfl | hmem
    · rw [entry_toItem_error_of_noIdentity hbad]
      exact ⟨_, rfl⟩
    · obtain ⟨m, hm⟩ := ih hmem
      rw [feedItems] at hm
      rcases hx : Entry.toItem x with e₀ | it
      · exact ⟨e₀, rfl⟩
      · refine ⟨m, ?_⟩
        show (xs.mapM Entry.toItem) >>= (fun ys => pure (it :: ys)) =
          Except.error m
        rw [hm]
        rfl

/-- C1 (counterexample to "raises an error exactly when all three are
unavailable"): an entry that does carry a feed-supplied GUID still fails
construction, because its non-empty raw date string is malformed and
`datetime.fromisoformat` raises. -/
theorem item_make_error_despite_guid :
    truthy (some "g") = true ∧
    Item.make none none none none none (some "not-a-date") (some "g") =
      Except.error "Invalid isoformat string" := by
  constructor
  · decide
  · rfl

/-- C1 (amended): `guid` is derived by priority — the feed-supplied GUID when
truthy, else `link`, else a deterministic hash of `content` — and, provided
the raw date is absent or well-formed, construction fails exactly when all
three identity sources are unavailable; a feed containing such an
identity-less entry fails to parse as a whole. -/
theorem item_make_guid_fallback (t c l a cm rd rg : Option String)
    (hdate : truthy rd = false ∨ (fromisoformat (rd.getD "")).isSome = true) :
    ((∃ m, Item.make t c l a cm rd rg = Except.error m) ↔
      truthy rg = false ∧ truthy l = false ∧ truthy c = false) ∧
    (truthy rg = true →
      ∃ it, Item.make t c l a cm rd rg = Except.ok it ∧ it.guid = rg.getD "") ∧
    (truthy rg = false → truthy l = true →
      ∃ it, Item.make t c l a cm rd rg = Except.ok it ∧ it.guid = l.getD "") ∧
    (truthy rg = false → truthy l = false → truthy c = true →
      ∃ it, Item.make t c l a cm rd rg = Except.ok it ∧
        it.guid = sha256hex (c.getD "")) ∧
    (∀ entries : List Entry, (⟨t, c, l, a, cm, rd, rg⟩ : Entry) ∈ entries →
      truthy rg = false → truthy l = false → truthy c = false →
      ∃ m, feedItems entries = Except.error m) := by
  have hdate' : ∃ dt, (if truthy rd then
      match fromisoformat (rd.getD "") with
      | some d => Except.ok (some d)
      | none => Except.error "Invalid isoformat string"
     else Except.ok none) = Except.ok (dt : Option PyDatetime) := by
    rcases hdate with h | h
    · rw [h]; exact ⟨none, rfl⟩
    · obtain ⟨d, hd⟩ := Option.isSome_iff_exists.mp h
      rcases hrd : truthy rd
      · exact ⟨none, by rw [if_neg (by simp)]⟩
      · exact ⟨some d, by rw [if_pos rfl, hd]⟩
  obtain ⟨dt, hdt⟩ := hdate'
  have mk : ∀ g : String,
      (if truthy rg then Except.ok (rg.getD "")
       else if truthy l then Except.ok (l.getD "")
       else if truthy c then Except.ok (sha256hex (c.getD ""))
       else Except.error "Item doesn't include a GUID, link, or contents") =
        Except.ok g →
      Item.make t c l a cm rd rg = Except.ok ⟨t, c, l, a, cm, dt, g⟩ := by
    intro g hg
    rw [item_make_eq, hg, except_bind_ok, hdt, except_bind_ok]
  refine ⟨?_, ?_, ?_, ?_, ?_⟩
  · constructor
    · rintro ⟨m, hm⟩
      by_contra hcon
      have hgx : ∃ g, (if truthy rg then Except.ok (rg.getD "")
          else if truthy l then Except.ok (l.getD "")
          else if truthy c then Except.ok (sha256hex (c.getD ""))
          else Except.error
            "Item doesn't include a GUID, link, or contents") = Except.ok g := by
        rcases hrg : truthy rg
        · rw [if_neg (by simp)]
          rcases hl : truthy l
          · rw [if_neg (by simp)]
            rcases hc : truthy c
            · exact absurd ⟨hrg, hl, hc⟩ hcon
            · rw [if_pos rfl]; exact ⟨_, rfl⟩
          · rw [if_pos rfl]; exact ⟨_, rfl⟩
        · rw [if_pos rfl]; exact ⟨_, rfl⟩
      obtain ⟨g, hg⟩ := hgx
      rw [mk g hg] at hm
      cases hm
    · rintro ⟨hrg, hl, hc⟩
      refine ⟨"Item doesn't include a GUID, link, or contents", ?_⟩
      rw [item_make_eq, hrg, hl, hc]
      rfl
  · intro hrg
    exact ⟨_, mk _ (by rw [if_pos hrg]; rfl), rfl⟩
  · intro hrg hl
    exact ⟨_, mk _ (by rw [if_neg (by rw [hrg]; simp), if_pos hl]; rfl), rfl⟩
  · intro hrg hl hc
    exact ⟨_, mk _ (by rw [if_neg (by rw [hrg]; simp),
      if_neg (by rw [hl]; simp), if_pos hc]; rfl), rfl⟩
  · intro entries hmem hrg hl hc
    exact feedItems_error_of_mem hmem ⟨hrg, hl, hc⟩

/-- Witness for C1 at a concrete entry: with no raw GUID, the link becomes
the guid and construction succeeds. -/
theorem item_make_guid_fallback_witness :
    (truthy (none : Option String) = false ∨
      (fromisoformat ((none : Option String).getD "")).isSome = true) ∧
    (∃ it, Item.make none none (some "L") none none none none = Except.ok it ∧
      it.guid = (some "L").getD "") := by
  have h := item_make_guid_fallback none none (some "L") none none none none
    (Or.inl rfl)
  exact ⟨Or.inl rfl, h.2.2.1 rfl (by decide)⟩

/-! ## The `items` table (`db.py`)

A row of the `items` table.  `score` is a SQLite `REAL`, modelled over `ℚ`
so that comparisons stay decidable.  The `thumbnail` column itself is
omitted from the row: no modelled operation reads it (`DbItem.from_row`
ignores it), and no row ever receives a value for it, because the
`item.thumbnail` attribute read performed while `Db.insert_items` builds
its parameters (modelled by `Item.thumbnail`) raises before any SQL
executes. -/

structure ItemRow where
  id : Nat
  feed_id : Nat
  is_read : Bool
  score : ℚ
  title : Option String
  content : Option String
  link : Option String
  author : Option String
  comments : Option String
  date : Option String
  guid : String
deriving DecidableEq, Repr

/-- The composite key of the `UNIQUE(feed_id, guid)` constraint. -/
def rowKey (r : ItemRow) : Nat × String := (r.feed_id, r.guid)

def hasKey (table : List ItemRow) (k : Nat × String) : Bool :=
  table.any (fun r => decide (rowKey r = k))

/-- The `DO UPDATE SET` arm of `Db.insert_items`: overwrite the mutable
columns, leave `id`, `feed_id`, `is_read`, `guid` alone. -/
def updateRow (score : ℚ) (it : Item) (r : ItemRow) : ItemRow :=
  { r with title := it.title, content := it.content, link := it.link,
           author := it.author, date := it.date_str, comments := it.comments,
           score := score }

/-- A freshly inserted row: next rowid, `is_read` defaults to `0`. -/
def newRow (table : List ItemRow) (feed_id : Nat) (score : ℚ) (it : Item) :
    ItemRow :=
  { id := (table.map ItemRow.id).foldr max 0 + 1, feed_id := feed_id,
    is_read := false, score := score, title := it.title, content := it.content,
    link := it.link, author := it.author, comments := it.comments,
    date := it.date_str, guid := it.guid }

/-- One `INSERT ... ON CONFLICT(feed_id, guid) DO UPDATE` of
`Db.insert_items`. -/
def insertItem (table : List ItemRow) (feed_id : Nat) (score : ℚ) (it : Item) :
    List ItemRow :=
  if hasKey table (feed_id, it.guid) then
    table.map (fun r =>
      if rowKey r = (feed_id, it.guid) then updateRow score it r else r)
  else
    table ++ [newRow table feed_id score it]

/-- `Db.insert_items` (`db.py`): the `executemany` upsert over a batch of
`(feed_id, score, item)` triples.  The parameter list comprehension runs
first and evaluates every column read — including `item.thumbnail`, which
raises — so the SQL stage (`insertItem` per row) is reached only when the
batch is empty. -/
def insert_items (table : List ItemRow) (items : List (Nat × ℚ × Item)) :
    Except String (List ItemRow) := do
  let params ← items.mapM (fun trip => (trip.2.2.thumbnail).map (fun _ => trip))
  pure (params.foldl (fun t trip => insertItem t trip.1 trip.2.1 trip.2.2)
    table)

/-- The empty batch builds an empty parameter list and succeeds without
touching the table. -/
theorem insert_items_nil (table : List ItemRow) :
    insert_items table [] = Except.ok table := rfl

/-- C2: the claimed upsert semantics are unreachable in this source — on
every non-empty batch `Db.insert_items` raises `AttributeError` while
building the `executemany` parameters (`item.thumbnail` is read at
`db.py` line 242, but `models.py`'s `Item` defines no such attribute), so
the `ON CONFLICT(feed_id, guid)` upsert never runs and no row is ever
inserted or updated. -/
theorem insert_items_raises (table : List ItemRow)
    (items : List (Nat × ℚ × Item)) (h : items ≠ []) :
    insert_items table items =
      Except.error
        "AttributeError: 'Item' object has no attribute 'thumbnail'" := by
  obtain ⟨trip, rest, rfl⟩ := List.exists_cons_of_ne_nil h
  unfold insert_items
  rw [List.mapM_cons]
  rfl

/-- Witness for C2 at a concrete one-item batch against the empty table. -/
theorem insert_items_raises_witness :
    ([((1 : Nat), (0 : ℚ),
        (⟨some "t", none, some "l", none, none, none, "g"⟩ : Item))] ≠
      ([] : List (Nat × ℚ × Item))) ∧
    insert_items []
        [(1, 0, ⟨some "t", none, some "l", none, none, none, "g"⟩)] =
      Except.error
        "AttributeError: 'Item' object has no attribute 'thumbnail'" :=
  ⟨by decide, insert_items_raises [] _ (by decide)⟩

/-! ## Retrieval: `Db.get_posts` / `Db._get_posts` (`db.py`) -/

/-- A row of the `feeds` table (schema in `Db._setup_connection`). -/
structure FeedRow where
  id : Nat
  url : String
  color : Option String
  title : Option String
  description : Option String
  etag : Option String
  last_modified : Option String
deriving DecidableEq, Repr

/-- The columns selected by `_get_posts`: the item columns, the author
`COALESCE`d with the feed title, and the feed's color. -/
structure PostRow where
  id : Nat
  feed_id : Nat
  is_read : Bool
  score : ℚ
  title : Option String
  content : Option String
  link : Option String
  author : Option String
  comments : Option String
  date : Option String
  guid : String
  color : Option String
deriving DecidableEq, Repr

/-- The `SELECT` list of `_get_posts` for one joined (feed, item) pair;
`COALESCE(items.author, feeds.title)` takes the feed title exactly when the
item's author is SQL `NULL`. -/
def selectRow (f : FeedRow) (r : ItemRow) : PostRow :=
  { id := r.id, feed_id := r.feed_id, is_read := r.is_read, score := r.score,
    title := r.title, content := r.content, link := r.link,
    author := match r.author with
              | some a => some a
              | none => f.title,
    comments := r.comments, date := r.date, guid := r.guid, color := f.color }

/-- `JOIN feeds ON feeds.id = items.feed_id` for one item row. -/
def joinRow (feeds : List FeedRow) (r : ItemRow) : Option PostRow :=
  (feeds.find? (fun f => decide (f.id = r.feed_id))).map (fun f => selectRow f r)

/-- SQLite ordering on a nullable text column: `NULL` sorts below any
string, strings compare by their character sequence. -/
def sqlStrLE (a b : Option String) : Bool :=
  match a, b with
  | none, _ => true
  | some _, none => false
  | some x, some y => decide (x ≤ y)

/-- The first sort key, `substr(items.date, 1, 10)`: the first ten
characters of the stored date text (its `YYYY-MM-DD` day for an ISO-8601
timestamp). -/
def dayKey (r : PostRow) : Option String := r.date.map (fun s => s.take 10)

/-- `ORDER BY substr(items.date,1,10) DESC, items.score DESC` as a Boolean
"comes no later than" comparator between result rows. -/
def postLE (r s : PostRow) : Bool :=
  if dayKey r = dayKey s then decide (s.score ≤ r.score)
  else sqlStrLE (dayKey s) (dayKey r)

theorem sqlStrLE_total (a b : Option String) :
    (sqlStrLE a b || sqlStrLE b a) = true := by
  rcases a with _ | x
  · rfl
  · rcases b with _ | y
    · rfl
    · show (decide (x ≤ y) || decide (y ≤ x)) = true
      rcases le_total x y with h | h <;> simp [h]

theorem sqlStrLE_trans {a b c : Option String} (h₁ : sqlStrLE a b = true)
    (h₂ : sqlStrLE b c = true) : sqlStrLE a c = true := by
  rcases a with _ | x
  · rfl
  · rcases b with _ | y
    · exact absurd h₁ (by simp [sqlStrLE])
    · rcases c with _ | z
      · exact absurd h₂ (by simp [sqlStrLE])
      · have h₁' : decide (x ≤ y) = true := h₁
        have h₂' : decide (y ≤ z) = true := h₂
        show decide (x ≤ z) = true
        exact decide_eq_true
          (le_trans (of_decide_eq_true h₁') (of_decide_eq_true h₂'))

theorem sqlStrLE_antisymm {a b : Option String} (h₁ : sqlStrLE a b = true)
    (h₂ : sqlStrLE b a = true) : a = b := by
  rcases a with _ | x
  · rcases b with _ | y
    · rfl
    · exact absurd h₂ (by simp [sqlStrLE])
  · rcases b with _ | y
    · exact absurd h₁ (by simp [sqlStrLE])
    · have h₁' : decide (x ≤ y) = true := h₁
      have h₂' : decide (y ≤ x) = true := h₂
      rw [le_antisymm (of_decide_eq_true h₁') (of_decide_eq_true h₂')]

theorem postLE_total (r s : PostRow) : (postLE r s || postLE s r) = true := by
  unfold postLE
  by_cases h : dayKey r = dayKey s
  · rw [if_pos h, if_pos h.symm]
    rcases le_total r.score s.score with hle | hle <;> simp [hle]
  · rw [if_neg h, if_neg (fun hh => h hh.symm)]
    exact sqlStrLE_total _ _

theorem postLE_trans (r s t : PostRow) (h₁ : postLE r s = true)
    (h₂ : postLE s t = true) : postLE r t = true := by
  unfold postLE at h₁ h₂ ⊢
  by_cases hrs : dayKey r = dayKey s <;> by_cases hst : dayKey s = dayKey t
  · rw [if_pos hrs] at h₁
    rw [if_pos hst] at h₂
    rw [if_pos (hrs.trans hst)]
    exact decide_eq_true (le_trans (of_decide_eq_true h₂) (of_decide_eq_true h₁))
  · rw [if_neg hst] at h₂
    have hrt : dayKey r ≠ dayKey t := fun hh => hst (hrs.symm.trans hh)
    rw [if_neg hrt, hrs]
    exact h₂
  · rw [if_neg hrs] at h₁
    have hrt : dayKey r ≠ dayKey t := fun hh => hrs (hh.trans hst.symm)
    rw [if_neg hrt, ← hst]
    exact h₁
  · rw [if_neg hrs] at h₁
    rw [if_neg hst] at h₂
    by_cases hrt : dayKey r = dayKey t
    · rw [← hrt] at h₂
      exact absurd (sqlStrLE_antisymm h₁ h₂).symm hrs
    · rw [if_neg hrt]
      exact sqlStrLE_trans h₂ h₁

/-- The query of `_get_posts`: filter the items by the conjunction of the
`WHERE` predicates, join each with its feed, and sort by the `ORDER BY`
comparator. -/
def getPostsRows (feeds : List FeedRow) (items : List ItemRow)
    (preds : List (ItemRow → Bool)) : List PostRow :=
  ((items.filter (fun r => preds.all (fun p => p r))).filterMap
    (joinRow feeds)).mergeSort postLE

/-- `items.link IS NOT NULL`, the filter `get_posts` always applies. -/
def linkPred (r : ItemRow) : Bool := decide (r.link ≠ none)

/-- `Db.get_posts` (`db.py`): the optional `days` filter is a predicate on
the stored date text (its SQL form `datetime(items.date) >=
datetime('now', '-days day')` depends on the wall clock, so it enters the
model as the predicate it denotes); `read` selects by `is_read`; the link
filter is unconditional. -/
def get_posts (feeds : List FeedRow) (items : List ItemRow)
    (datePred : Option (Option String → Bool)) (read : Option Bool) :
    List PostRow :=
  let readPreds : List (ItemRow → Bool) :=
    match read with
    | none => []
    | some true => [fun r => r.is_read == true]
    | some false => [fun r => r.is_read == false]
  getPostsRows feeds items
    ([linkPred] ++ (datePred.map (fun dp => fun r : ItemRow => dp r.date)).toList
      ++ readPreds)

theorem length_filterMap_of_isSome {α β : Type} (g : α → Option β)
    (l : List α) (h : ∀ x ∈ l, (g x).isSome = true) :
    (l.filterMap g).length = l.length := by
  induction l with
  | nil => rfl
  | cons a l ih =>
    obtain ⟨b, hb⟩ := Option.isSome_iff_exists.mp (h a (List.mem_cons_self _ _))
    rw [List.filterMap_cons, hb, List.length_cons,
      ih (fun x hx => h x (List.mem_cons_of_mem _ hx))]
    rfl

/-- C8 counterexample to "returns every stored item": an item row whose
`link` is SQL `NULL` is stored, yet `get_posts` with no filter arguments
returns nothing — the `items.link IS NOT NULL` predicate is applied
unconditionally. -/
theorem get_posts_omits_null_link :
    (⟨1, 1, false, 0, none, none, none, none, none, none, "g"⟩ : ItemRow) ∈
      [(⟨1, 1, false, 0, none, none, none, none, none, none, "g"⟩ : ItemRow)] ∧
    get_posts [⟨1, "u", none, none, none, none, none⟩]
      [⟨1, 1, false, 0, none, none, none, none, none, none, "g"⟩]
      none none = [] := by
  refine ⟨List.mem_singleton.mpr rfl, ?_⟩
  have heval : get_posts [⟨1, "u", none, none, none, none, none⟩]
      [⟨1, 1, false, 0, none, none, none, none, none, none, "g"⟩]
      none none = List.mergeSort [] postLE := rfl
  rw [heval, List.mergeSort_nil]

/-- C8 (amended): `get_posts` with no filter arguments returns exactly the
stored items having a non-null `link` (each joined with its feed); and for
every choice of the optional filters the results are ordered by the stored
date's first ten characters (its day, for ISO dates) descending, ties broken
by score descending. -/
theorem get_posts_ordering_and_completeness (feeds : List FeedRow)
    (items : List ItemRow) (datePred : Option (Option String → Bool))
    (read : Option Bool)
    (hfeeds : ∀ r ∈ items,
      (feeds.find? (fun f => decide (f.id = r.feed_id))).isSome = true) :
    (get_posts feeds items datePred read).Pairwise
      (fun a b => postLE a b = true) ∧
    (get_posts feeds items none none).Perm
      ((items.filter linkPred).filterMap (joinRow feeds)) ∧
    (get_posts feeds items none none).length =
      (items.filter linkPred).length ∧
    (∀ r ∈ items, linkPred r = true →
      ∃ f, feeds.find? (fun f => decide (f.id = r.feed_id)) = some f ∧
        selectRow f r ∈ get_posts feeds items none none) := by
  have hbase : get_posts feeds items none none =
      ((items.filter linkPred).filterMap (joinRow feeds)).mergeSort postLE := by
    show getPostsRows feeds items ([linkPred] ++ [] ++ []) = _
    rw [getPostsRows]
    have : items.filter
        (fun r => ([linkPred] ++ [] ++ []).all (fun p => p r)) =
        items.filter linkPred :=
      List.filter_congr (fun x _ => by simp)
    rw [this]
  have hperm : (get_posts feeds items none none).Perm
      ((items.filter linkPred).filterMap (joinRow feeds)) := by
    rw [hbase]; exact List.mergeSort_perm _ _
  have hsome : ∀ x ∈ items.filter linkPred,
      ((joinRow feeds) x).isSome = true := by
    intro x hx
    obtain ⟨f, hf⟩ :=
      Option.isSome_iff_exists.mp (hfeeds x (List.mem_filter.mp hx).1)
    rw [joinRow, hf]
    rfl
  refine ⟨?_, hperm, ?_, ?_⟩
  · exact List.sorted_mergeSort postLE_trans postLE_total _
  · rw [hperm.length_eq]
    exact length_filterMap_of_isSome _ _ hsome
  · intro r hr hl
    obtain ⟨f, hf⟩ := Option.isSome_iff_exists.mp (hfeeds r hr)
    refine ⟨f, hf, ?_⟩
    rw [hperm.mem_iff]
    exact List.mem_filterMap.mpr
      ⟨r, List.mem_filter.mpr ⟨hr, hl⟩, by rw [joinRow, hf]; rfl⟩

/-- Witness for C8 at a one-feed, one-item database: the feed of every item
is present, and the query returns as many rows as there are items with a
non-null link. -/
theorem get_posts_ordering_and_completeness_witness :
    (∀ r ∈ [(⟨1, 1, false, 0, none, none, some "l", none, none, none, "g"⟩ :
        ItemRow)],
      (([⟨1, "u", none, none, none, none, none⟩] :
        List FeedRow).find? (fun f => decide (f.id = r.feed_id))).isSome =
          true) ∧
    (get_posts [⟨1, "u", none, none, none, none, none⟩]
      [⟨1, 1, false, 0, none, none, some "l", none, none, none, "g"⟩]
      none none).length =
    ([(⟨1, 1, false, 0, none, none, some "l", none, none, none, "g"⟩ :
      ItemRow)].filter linkPred).length := by
  have h := get_posts_ordering_and_completeness
    [⟨1, "u", none, none, none, none, none⟩]
    [⟨1, 1, false, 0, none, none, some "l", none, none, none, "g"⟩]
    none none (by decide)
  exact ⟨by decide, h.2.2.1⟩

/-! ## `DbItem.from_row` and the read-back round trip (C3) -/

/-- A stored item as returned to callers (`models.py` `DbItem`). -/
structure DbItem where
  id : Nat
  feed_id : Nat
  is_read : Bool
  score : ℚ
  color : Option String
  inner : Item
deriving DecidableEq, Repr

/-- `DbItem.from_row` (`models.py`): rebuild the nested `Item` from the
selected columns; `Item.__post_init__` runs again on the stored fields (and
would propagate its `ValueError`). -/
def DbItem.from_row (p : PostRow) : Except String DbItem :=
  (Item.make p.title p.content p.link p.author p.comments p.date
    (some p.guid)).map
    (fun inn =>
      { id := p.id, feed_id := p.feed_id, is_read := p.is_read,
        score := p.score, color := p.color, inner := inn })

/-- `Db._get_posts` (`db.py`) including row conversion: the query rows in
order, each through `DbItem.from_row`. -/
def get_posts_items (feeds : List FeedRow) (items : List ItemRow)
    (preds : List (ItemRow → Bool)) : Except String (List DbItem) :=
  (getPostsRows feeds items preds).mapM DbItem.from_row

/-- `Item.make` succeeds outright when handed a non-empty raw guid and a
well-formed date stage. -/
theorem item_make_ok_of_guid (t c l a cm rd : Option String) (g : String)
    (hg : g ≠ "") {dt : Option PyDatetime}
    (hdt : (if truthy rd then
        match fromisoformat (rd.getD "") with
        | some d => Except.ok (some d)
        | none => Except.error "Invalid isoformat string"
      else Except.ok none) = Except.ok dt) :
    Item.make t c l a cm rd (some g) = Except.ok ⟨t, c, l, a, cm, dt, g⟩ := by
  have htr : truthy (some g) = true := by
    rw [truthy_some, beq_eq_false_iff_ne.mpr hg]
    rfl
  rw [item_make_eq, if_pos htr, except_bind_ok, hdt, except_bind_ok]
  rfl

/-- The date stage of reconstruction: parsing the stored `date_str` text
recovers the UTC-normalized datetime. -/
theorem date_stage_of_date_str (it : Item) :
    (if truthy it.date_str then
        match fromisoformat (it.date_str.getD "") with
        | some d => Except.ok (some d)
        | none => Except.error "Invalid isoformat string"
      else Except.ok none) =
      Except.ok (it.date.map astimezoneUTC) := by
  rcases hd : it.date with _ | d0
  · rw [Item.date_str, hd]
    rfl
  · rw [Item.date_str, hd]
    have hne : isoformat (astimezoneUTC d0) ≠ "" := isoformat_ne_empty _
    have htr : truthy (some (isoformat (astimezoneUTC d0))) = true := by
      rw [truthy_some, beq_eq_false_iff_ne.mpr hne]
      rfl
    show (if truthy (some (isoformat (astimezoneUTC d0))) then
        match fromisoformat (isoformat (astimezoneUTC d0)) with
        | some d => Except.ok (some d)
        | none => Except.error "Invalid isoformat string"
      else Except.ok none) = _
    rw [if_pos htr, fromisoformat_isoformat]
    rfl

/-- C3: the store-then-read round trip never begins in this source — for
every feed row, score and item, the store step `Db.insert_items` raises
`AttributeError` at the `item.thumbnail` read before any SQL executes, so
no item is ever successfully stored, and reading the untouched table back
returns no items.  (Had a row been stored, the read-back would additionally
substitute the feed's title for a SQL `NULL` author, because the query
selects `COALESCE(items.author, feeds.title)` — see `selectRow`.) -/
theorem insert_get_roundtrip_blocked (f : FeedRow) (s : ℚ) (it : Item) :
    insert_items [] [(f.id, s, it)] =
      Except.error
        "AttributeError: 'Item' object has no attribute 'thumbnail'" ∧
    get_posts_items [f] [] [] = Except.ok [] := by
  constructor
  · unfold insert_items
    rw [List.mapM_cons]
    rfl
  · have h0 : getPostsRows [f] [] [] = [] := by
      rw [getPostsRows]
      have hfil : (([] : List ItemRow).filter
          (fun r => List.all ([] : List (ItemRow → Bool))
            (fun p => p r))).filterMap (joinRow [f]) = [] := rfl
      rw [hfil, List.mergeSort_nil]
    unfold get_posts_items
    rw [h0]
    rfl

/-! ## The scoring model (`scoring.py`) -/

/-- A scored token (`scoring.py` `Token`): occurrences in upvoted and in
downvoted documents; both default to `0`. -/
structure Token where
  up : Nat := 0
  down : Nat := 0
deriving DecidableEq, Repr

inductive Vote where
  | UP
  | DOWN
deriving DecidableEq, Repr

/-- The in-memory model (`scoring.py` `Model`); `tokens` is the Python dict
as a key-unique association list in insertion order. -/
structure Model where
  up_docs : Nat
  down_docs : Nat
  up_total_tokens : Nat
  down_total_tokens : Nat
  tokens : List (String × Token)
deriving DecidableEq, Repr

def Model.vocabulary_size (m : Model) : Nat := m.tokens.length

/-- `dict.get`: look a key up; never inserts. -/
def dictGet (l : List (String × Token)) (t : String) : Option Token :=
  (l.find? (fun p => p.1 == t)).map Prod.snd

/-- The `up` count stored under a key (`0` when absent, the defaultdict's
fresh `Token()`). -/
def upOf (l : List (String × Token)) (t : String) : Nat :=
  ((dictGet l t).getD {}).up

def downOf (l : List (String × Token)) (t : String) : Nat :=
  ((dictGet l t).getD {}).down

def sumUp (l : List (String × Token)) : Nat :=
  (l.map (fun p => p.2.up)).sum

def sumDown (l : List (String × Token)) : Nat :=
  (l.map (fun p => p.2.down)).sum

/-- `self.tokens[text].up += count` on a `defaultdict(Token)`: bump the
entry when present, otherwise insert the default and bump it (Python dicts
append new keys at the end). -/
def ddBumpUp (l : List (String × Token)) (t : String) (c : Nat) :
    List (String × Token) :=
  if l.any (fun p => p.1 == t) then
    l.map (fun p =>
      if p.1 == t then (p.1, { p.2 with up := p.2.up + c }) else p)
  else l ++ [(t, { up := c })]

/-- `self.tokens[text].down += count`, the `Vote.DOWN` twin. -/
def ddBumpDown (l : List (String × Token)) (t : String) (c : Nat) :
    List (String × Token) :=
  if l.any (fun p => p.1 == t) then
    l.map (fun p =>
      if p.1 == t then (p.1, { p.2 with down := p.2.down + c }) else p)
  else l ++ [(t, { down := c })]

/-- `Counter(tokenize(document)).items()`: the distinct tokens of the
document with their multiplicities.  (The iteration order of the Python
`Counter` — first occurrence first — does not affect any modelled result,
so `dedup`'s order is used.) -/
def countsList (doc : List String) : List (String × Nat) :=
  doc.dedup.map (fun t => (t, doc.count t))

/-- The persisted model state: the singleton `model` row's four counters and
the `model_tokens` table (keyed by token text). -/
structure DbModel where
  up_docs : Nat
  down_docs : Nat
  up_total_tokens : Nat
  down_total_tokens : Nat
  tokens : List (String × Token)
deriving DecidableEq, Repr

/-- One row of the `executemany` in `add_item`:
`INSERT INTO model_tokens ... ON CONFLICT(text) DO UPDATE SET
up = up + excluded.up, down = down + excluded.down`. -/
def sqlBumpToken (l : List (String × Token)) (t : String) (tok : Token) :
    List (String × Token) :=
  if l.any (fun p => p.1 == t) then
    l.map (fun p =>
      if p.1 == t then
        (p.1, { up := p.2.up + tok.up, down := p.2.down + tok.down })
      else p)
  else l ++ [(t, tok)]

/-- `Model.add_item` (`scoring.py`), taking the already-tokenized document
`doc = tokenize(document)`.  In memory: bump each distinct token's counter
for the vote's class and the two matching scalars.  Persisted: the four
scalar counters are overwritten with the new in-memory values, while each
token row receives only this document's delta (`updated`) through the
additive upsert. -/
def Model.add_item (m : Model) (db : DbModel) (doc : List String) (v : Vote) :
    Model × DbModel :=
  let counts := countsList doc
  let new_tokens := (counts.map Prod.snd).sum
  let tokens' := counts.foldl (fun l p =>
    match v with
    | Vote.UP => ddBumpUp l p.1 p.2
    | Vote.DOWN => ddBumpDown l p.1 p.2) m.tokens
  let updated : List (String × Token) := counts.map (fun p =>
    match v with
    | Vote.UP => (p.1, { up := p.2 })
    | Vote.DOWN => (p.1, { down := p.2 }))
  let m' : Model :=
    match v with
    | Vote.UP =>
      { m with tokens := tokens', up_docs := m.up_docs + 1,
               up_total_tokens := m.up_total_tokens + new_tokens }
    | Vote.DOWN =>
      { m with tokens := tokens', down_docs := m.down_docs + 1,
               down_total_tokens := m.down_total_tokens + new_tokens }
  let db' : DbModel :=
    { up_docs := m'.up_docs, down_docs := m'.down_docs,
      up_total_tokens := m'.up_total_tokens,
      down_total_tokens := m'.down_total_tokens,
      tokens := updated.foldl (fun l p => sqlBumpToken l p.1 p.2) db.tokens }
  (m', db')

theorem anyKey_iff (l : List (String × Token)) (t : String) :
    l.any (fun p => p.1 == t) = true ↔ t ∈ l.map Prod.fst := by
  rw [List.any_eq_true]
  constructor
  · rintro ⟨p, hp, hbeq⟩
    exact List.mem_map.mpr ⟨p, hp, beq_iff_eq.mp hbeq⟩
  · intro h
    obtain ⟨p, hp, hk⟩ := List.mem_map.mp h
    exact ⟨p, hp, beq_iff_eq.mpr hk⟩

theorem sum_map_bump (π : Token → Nat) (g : Token → Token) (c : Nat)
    (hg : ∀ tok, π (g tok) = π tok + c) {l : List (String × Token)}
    {t : String} (hnd : (l.map Prod.fst).Nodup) (hmem : t ∈ l.map Prod.fst) :
    ((l.map (fun p => if p.1 == t then (p.1, g p.2) else p)).map
      (fun p => π p.2)).sum = (l.map (fun p => π p.2)).sum + c := by
  induction l with
  | nil => cases hmem
  | cons p rest ih =>
    rw [List.map_cons] at hnd hmem
    rw [List.map_cons, List.map_cons, List.sum_cons, List.map_cons,
      List.sum_cons]
    by_cases hp : p.1 = t
    · rw [if_pos (beq_iff_eq.mpr hp)]
      have hnotin : t ∉ rest.map Prod.fst := by
        have := (List.nodup_cons.mp hnd).1
        rwa [hp] at this
      have hrest : rest.map
          (fun q => if q.1 == t then (q.1, g q.2) else q) = rest := by
        apply (List.map_congr_left ?_).trans (List.map_id _)
        intro q hq
        have hqt : ¬((q.1 == t) = true) := fun hbeq =>
          hnotin (List.mem_map.mpr ⟨q, hq, beq_iff_eq.mp hbeq⟩)
        rw [if_neg hqt]
        rfl
      rw [hrest]
      show π (g p.2) + _ = _
      rw [hg]
      omega
    · rw [if_neg (fun hbeq => hp (beq_iff_eq.mp hbeq))]
      have hmem' : t ∈ rest.map Prod.fst := by
        rcases List.mem_cons.mp hmem with h | h
        · exact absurd h.symm hp
        · exact h
      rw [ih (List.nodup_cons.mp hnd).2 hmem']
      omega

theorem sum_bumpShape (π : Token → Nat) (g : Token → Token) (tok₀ : Token)
    (c : Nat) (hg : ∀ tok, π (g tok) = π tok + c) (hπ0 : π tok₀ = c)
    (l : List (String × Token)) (t : String)
    (hnd : (l.map Prod.fst).Nodup) :
    ((if l.any (fun p => p.1 == t) then
        l.map (fun p => if p.1 == t then (p.1, g p.2) else p)
      else l ++ [(t, tok₀)]).map (fun p => π p.2)).sum =
      (l.map (fun p => π p.2)).sum + c := by
  by_cases h : l.any (fun p => p.1 == t) = true
  · rw [if_pos h]
    exact sum_map_bump π g c hg hnd ((anyKey_iff _ _).mp h)
  · rw [if_neg h, List.map_append, List.sum_append]
    simp [hπ0]

theorem keys_map_bump (g : Token → Token) (l : List (String × Token))
    (t : String) :
    (l.map (fun p => if p.1 == t then (p.1, g p.2) else p)).map Prod.fst =
      l.map Prod.fst := by
  rw [List.map_map]
  apply List.map_congr_left
  intro p _
  show ((if p.1 == t then (p.1, g p.2) else p) : String × Token).1 = p.1
  split <;> rfl

theorem nodup_keys_bumpShape (g : Token → Token) (tok₀ : Token)
    (l : List (String × Token)) (t : String)
    (hnd : (l.map Prod.fst).Nodup) :
    ((if l.any (fun p => p.1 == t) then
        l.map (fun p => if p.1 == t then (p.1, g p.2) else p)
      else l ++ [(t, tok₀)]).map Prod.fst).Nodup := by
  by_cases h : l.any (fun p => p.1 == t) = true
  · rw [if_pos h, keys_map_bump]
    exact hnd
  · rw [if_neg h, List.map_append]
    have hsingle : (List.map Prod.fst [(t, tok₀)]) = [t] := rfl
    rw [hsingle, (List.perm_append_singleton _ _).nodup_iff, List.nodup_cons]
    exact ⟨fun hm => h ((anyKey_iff _ _).mpr hm), hnd⟩

/-- The two in-memory sums and the key set across one `ddBumpUp` fold. -/
theorem fold_ddBumpUp_sums (counts : List (String × Nat)) :
    ∀ {l : List (String × Token)}, (l.map Prod.fst).Nodup →
      (((counts.foldl (fun l p => ddBumpUp l p.1 p.2) l).map
        Prod.fst).Nodup ∧
      sumUp (counts.foldl (fun l p => ddBumpUp l p.1 p.2) l) =
        sumUp l + (counts.map Prod.snd).sum ∧
      sumDown (counts.foldl (fun l p => ddBumpUp l p.1 p.2) l) = sumDown l) := by
  induction counts with
  | nil =>
    intro l hnd
    exact ⟨hnd, by simp [List.foldl_nil], rfl⟩
  | cons q rest ih =>
    intro l hnd
    rw [List.foldl_cons]
    have hnd' : ((ddBumpUp l q.1 q.2).map Prod.fst).Nodup :=
      nodup_keys_bumpShape (fun tok => { tok with up := tok.up + q.2 })
        { up := q.2 } l q.1 hnd
    obtain ⟨ha, hb, hc⟩ := ih hnd'
    refine ⟨ha, ?_, ?_⟩
    · rw [hb]
      have : sumUp (ddBumpUp l q.1 q.2) = sumUp l + q.2 :=
        sum_bumpShape Token.up (fun tok => { tok with up := tok.up + q.2 })
          { up := q.2 } q.2 (fun tok => rfl) rfl l q.1 hnd
      rw [this, List.map_cons, List.sum_cons]
      omega
    · rw [hc]
      exact sum_bumpShape Token.down
        (fun tok => { tok with up := tok.up + q.2 }) { up := q.2 } 0
        (fun tok => rfl) rfl l q.1 hnd

/-- The `ddBumpDown` twin of `fold_ddBumpUp_sums`. -/
theorem fold_ddBumpDown_sums (counts : List (String × Nat)) :
    ∀ {l : List (String × Token)}, (l.map Prod.fst).Nodup →
      (((counts.foldl (fun l p => ddBumpDown l p.1 p.2) l).map
        Prod.fst).Nodup ∧
      sumDown (counts.foldl (fun l p => ddBumpDown l p.1 p.2) l) =
        sumDown l + (counts.map Prod.snd).sum ∧
      sumUp (counts.foldl (fun l p => ddBumpDown l p.1 p.2) l) = sumUp l) := by
  induction counts with
  | nil =>
    intro l hnd
    exact ⟨hnd, by simp [List.foldl_nil], rfl⟩
  | cons q rest ih =>
    intro l hnd
    rw [List.foldl_cons]
    have hnd' : ((ddBumpDown l q.1 q.2).map Prod.fst).Nodup :=
      nodup_keys_bumpShape (fun tok => { tok with down := tok.down + q.2 })
        { down := q.2 } l q.1 hnd
    obtain ⟨ha, hb, hc⟩ := ih hnd'
    refine ⟨ha, ?_, ?_⟩
    · rw [hb]
      have : sumDown (ddBumpDown l q.1 q.2) = sumDown l + q.2 :=
        sum_bumpShape Token.down
          (fun tok => { tok with down := tok.down + q.2 }) { down := q.2 }
          q.2 (fun tok => rfl) rfl l q.1 hnd
      rw [this, List.map_cons, List.sum_cons]
      omega
    · rw [hc]
      exact sum_bumpShape Token.up
        (fun tok => { tok with down := tok.down + q.2 }) { down := q.2 } 0
        (fun tok => rfl) rfl l q.1 hnd

/-- Looking up through an entry-transforming map: the entry under `t` is
transformed, every other key is untouched. -/
theorem dictGet_map_bump (g : Token → Token) (l : List (String × Token))
    (t s : String) :
    dictGet (l.map (fun p => if p.1 == t then (p.1, g p.2) else p)) s =
      if s = t then (dictGet l s).map g else dictGet l s := by
  induction l with
  | nil => by_cases h : s = t <;> simp [dictGet, h]
  | cons p rest ih =>
    rw [List.map_cons]
    by_cases hpt : (p.1 == t) = true
    · rw [if_pos hpt]
      by_cases hps : (p.1 == s) = true
      · have hst : s = t := (beq_iff_eq.mp hps) ▸ (beq_iff_eq.mp hpt)
        rw [if_pos hst, dictGet, List.find?_cons, dictGet, List.find?_cons]
        show (match (p.1 == s : Bool) with
          | true => some (p.1, g p.2)
          | false => List.find? (fun q => q.1 == s)
              (rest.map (fun q : String × Token =>
                if q.1 == t then (q.1, g q.2) else q))).map
            Prod.snd = ((match (p.1 == s : Bool) with
          | true => some p
          | false => List.find? (fun q => q.1 == s) rest).map Prod.snd).map g
        rw [hps]
        rfl
      · rw [dictGet, List.find?_cons]
        show (match (p.1 == s) with
          | true => some (p.1, g p.2)
          | false => List.find? (fun q => q.1 == s)
              (rest.map (fun q : String × Token => if q.1 == t then (q.1, g q.2) else q))).map
            Prod.snd = _
        rw [Bool.of_not_eq_true hps]
        have hrhs : dictGet (p :: rest) s = dictGet rest s := by
          rw [dictGet, List.find?_cons]
          show (match (p.1 == s) with
            | true => some p
            | false => List.find? (fun q => q.1 == s) rest).map Prod.snd = _
          rw [Bool.of_not_eq_true hps]
          rfl
        rw [hrhs]
        exact ih
    · rw [if_neg hpt]
      by_cases hps : (p.1 == s) = true
      · have hst : ¬(s = t) := by
          intro hh
          exact hpt (by rw [← hh]; exact hps)
        rw [if_neg hst, dictGet, List.find?_cons, dictGet, List.find?_cons]
        show (match (p.1 == s) with
          | true => some p
          | false => List.find? (fun q => q.1 == s)
              (rest.map (fun q : String × Token => if q.1 == t then (q.1, g q.2) else q))).map
            Prod.snd = (match (p.1 == s) with
          | true => some p
          | false => List.find? (fun q => q.1 == s) rest).map Prod.snd
        rw [hps]
      · rw [dictGet, List.find?_cons]
        show (match (p.1 == s) with
          | true => some p
          | false => List.find? (fun q => q.1 == s)
              (rest.map (fun q : String × Token => if q.1 == t then (q.1, g q.2) else q))).map
            Prod.snd = _
        rw [Bool.of_not_eq_true hps]
        have hrhs : dictGet (p :: rest) s = dictGet rest s := by
          rw [dictGet, List.find?_cons]
          show (match (p.1 == s) with
            | true => some p
            | false => List.find? (fun q => q.1 == s) rest).map Prod.snd = _
          rw [Bool.of_not_eq_true hps]
          rfl
        rw [hrhs]
        exact ih

/-- Looking up after appending a genuinely new entry. -/
theorem dictGet_append_single (l : List (String × Token)) (t : String)
    (tok : Token) (habs : l.any (fun p => p.1 == t) = false) (s : String) :
    dictGet (l ++ [(t, tok)]) s =
      if s = t then some tok else dictGet l s := by
  rw [dictGet, List.find?_append]
  by_cases hst : s = t
  · subst hst
    have hnone : l.find? (fun p => p.1 == s) = none := by
      rw [List.find?_eq_none]
      intro p hp hbeq
      have hcon : l.any (fun p => p.1 == s) = true :=
        List.any_eq_true.mpr ⟨p, hp, hbeq⟩
      rw [habs] at hcon
      cases hcon
    rw [hnone, if_pos rfl]
    show ((Option.none.or
      (List.find? (fun p => p.1 == s) [(s, tok)]))).map Prod.snd = some tok
    rw [List.find?_cons]
    show ((Option.none.or (match (s == s : Bool) with
      | true => some (s, tok)
      | false => List.find? (fun p => p.1 == s) []))).map Prod.snd = some tok
    rw [beq_self_eq_true]
    rfl
  · rw [if_neg hst]
    have hlast : List.find? (fun p => p.1 == s) [(t, tok)] = none := by
      rw [List.find?_cons]
      show (match (t == s : Bool) with
        | true => some (t, tok)
        | false => List.find? (fun p => p.1 == s) []) = none
      rw [beq_eq_false_iff_ne.mpr (fun hh => hst hh.symm)]
      rfl
    rw [hlast, dictGet]
    cases hf : l.find? (fun p => p.1 == s) <;> rfl

/-- One additive SQL upsert, seen through lookups: the targeted key gains
exactly the delta, every other key is untouched. -/
theorem dictGet_sqlBumpToken (l : List (String × Token)) (t : String)
    (tok : Token) (s : String) :
    dictGet (sqlBumpToken l t tok) s =
      if s = t then
        some { up := upOf l s + tok.up, down := downOf l s + tok.down }
      else dictGet l s := by
  rw [sqlBumpToken]
  by_cases h : l.any (fun p => p.1 == t) = true
  · rw [if_pos h]
    have hd := dictGet_map_bump
      (fun x => { up := x.up + tok.up, down := x.down + tok.down }) l t s
    by_cases hst : s = t
    · rw [if_pos hst] at hd
      rw [hd, if_pos hst]
      have hsome : (dictGet l s).isSome = true := by
        subst hst
        rw [dictGet]
        cases hfl : l.find? (fun p => p.1 == s) with
        | none =>
          rw [List.any_eq_true] at h
          obtain ⟨p, hp, hbeq⟩ := h
          rw [List.find?_eq_none] at hfl
          exact absurd hbeq (hfl p hp)
        | some p => rfl
      obtain ⟨x, hx⟩ := Option.isSome_iff_exists.mp hsome
      have hup : upOf l s = x.up := by unfold upOf; rw [hx]; rfl
      have hdn : downOf l s = x.down := by unfold downOf; rw [hx]; rfl
      rw [hx, hup, hdn]
      rfl
    · rw [if_neg hst] at hd
      rw [hd, if_neg hst]
  · rw [if_neg h]
    have habs : l.any (fun p => p.1 == t) = false := by
      rcases hh : l.any (fun p => p.1 == t)
      · rfl
      · exact absurd hh h
    rw [dictGet_append_single l t tok habs s]
    by_cases hst : s = t
    · rw [if_pos hst, if_pos hst]
      have hnone : dictGet l s = none := by
        subst hst
        rw [dictGet, List.find?_eq_none.mpr]
        · rfl
        · intro p hp hbeq
          have hcon : l.any (fun p => p.1 == s) = true :=
            List.any_eq_true.mpr ⟨p, hp, hbeq⟩
          rw [habs] at hcon
          cases hcon
      have hup : upOf l s = 0 := by unfold upOf; rw [hnone]; rfl
      have hdn : downOf l s = 0 := by unfold downOf; rw [hnone]; rfl
      rw [hup, hdn]
      congr 1
      cases tok
      simp
    · rw [if_neg hst, if_neg hst]

theorem upOf_sqlBumpToken (l : List (String × Token)) (t : String)
    (tok : Token) (s : String) :
    upOf (sqlBumpToken l t tok) s = upOf l s + (if s = t then tok.up else 0) := by
  unfold upOf
  rw [dictGet_sqlBumpToken]
  by_cases hst : s = t
  · rw [if_pos hst, if_pos hst]
    rfl
  · rw [if_neg hst, if_neg hst]
    omega

theorem downOf_sqlBumpToken (l : List (String × Token)) (t : String)
    (tok : Token) (s : String) :
    downOf (sqlBumpToken l t tok) s =
      downOf l s + (if s = t then tok.down else 0) := by
  unfold downOf
  rw [dictGet_sqlBumpToken]
  by_cases hst : s = t
  · rw [if_pos hst, if_pos hst]
    rfl
  · rw [if_neg hst, if_neg hst]
    omega

/-- Folding a batch of per-token deltas with unique keys into the persisted
table adds, under every key, exactly that key's delta. -/
theorem fold_sqlBump_lookups (u : List (String × Token)) :
    ∀ {l : List (String × Token)}, (u.map Prod.fst).Nodup → ∀ s,
      upOf (u.foldl (fun l p => sqlBumpToken l p.1 p.2) l) s =
        upOf l s +
          (((u.find? (fun p => p.1 == s)).map (fun p => p.2.up)).getD 0) ∧
      downOf (u.foldl (fun l p => sqlBumpToken l p.1 p.2) l) s =
        downOf l s +
          (((u.find? (fun p => p.1 == s)).map (fun p => p.2.down)).getD 0) := by
  induction u with
  | nil =>
    intro l _ s
    simp [List.foldl_nil]
  | cons q rest ih =>
    intro l hnd s
    rw [List.map_cons] at hnd
    rw [List.foldl_cons, List.find?_cons]
    have hup := upOf_sqlBumpToken l q.1 q.2 s
    have hdn := downOf_sqlBumpToken l q.1 q.2 s
    obtain ⟨h1, h2⟩ := ih (List.nodup_cons.mp hnd).2 s
    cases hqs : (q.1 == s) with
    | true =>
      have hse : s = q.1 := (beq_iff_eq.mp hqs).symm
      rw [if_pos hse] at hup hdn
      have hrest : rest.find? (fun p => p.1 == s) = none := by
        rw [List.find?_eq_none]
        intro p hp hbeq
        have hmemk : q.1 ∈ rest.map Prod.fst := by
          have := List.mem_map_of_mem Prod.fst hp
          rwa [beq_iff_eq.mp hbeq, hse] at this
        exact (List.nodup_cons.mp hnd).1 hmemk
      constructor
      · simp only [hqs]
        rw [h1, hrest, hup]
        simp
      · simp only [hqs]
        rw [h2, hrest, hdn]
        simp
    | false =>
      have hse : ¬(s = q.1) := by
        intro hh
        rw [hh, beq_self_eq_true] at hqs
        cases hqs
      rw [if_neg hse] at hup hdn
      constructor
      · simp only [hqs]
        rw [h1, hup]
        omega
      · simp only [hqs]
        rw [h2, hdn]
        omega

theorem keys_countsList (doc : List String) :
    (countsList doc).map Prod.fst = doc.dedup := by
  rw [countsList, List.map_map]
  exact (List.map_congr_left (fun t _ => rfl)).trans (List.map_id _)

theorem find?_beq_self (dl : List String) (s : String) :
    dl.find? (fun t => t == s) = if s ∈ dl then some s else none := by
  induction dl with
  | nil => simp
  | cons d rest ih =>
    rw [List.find?_cons]
    cases hds : (d == s) with
    | true =>
      have hd : d = s := beq_iff_eq.mp hds
      subst hd
      rw [if_pos (List.mem_cons_self _ _)]
    | false =>
      have hd : ¬(d = s) := fun hh => by rw [hh, beq_self_eq_true] at hds; cases hds
      show rest.find? (fun t => t == s) = _
      rw [ih]
      by_cases hm : s ∈ rest
      · rw [if_pos hm, if_pos (List.mem_cons_of_mem _ hm)]
      · rw [if_neg hm, if_neg (fun hh => by
          rcases List.mem_cons.mp hh with hh1 | hh2
          · exact hd hh1.symm
          · exact hm hh2)]

/-- `find?` by key over the counts of a document. -/
theorem countsList_find? (doc : List String) (s : String) :
    (countsList doc).find? (fun p => p.1 == s) =
      if s ∈ doc then some (s, doc.count s) else none := by
  rw [countsList, List.find?_map]
  have hcomp : ((fun p : String × Nat => p.1 == s) ∘
      (fun t => (t, doc.count t))) = fun t => t == s := rfl
  rw [hcomp, find?_beq_self]
  by_cases hm : s ∈ doc
  · rw [if_pos ((List.mem_dedup).mpr hm), if_pos hm]
    rfl
  · rw [if_neg (fun hh => hm ((List.mem_dedup).mp hh)), if_neg hm]
    rfl

theorem keys_updated_map (doc : List String) (f : String × Nat → Token) :
    (((countsList doc).map (fun p => (p.1, f p))).map Prod.fst).Nodup := by
  rw [List.map_map]
  have : ((countsList doc).map (Prod.fst ∘ fun p => (p.1, f p))) =
      (countsList doc).map Prod.fst :=
    List.map_congr_left (fun p _ => rfl)
  rw [this, keys_countsList]
  exact List.nodup_dedup doc

theorem updated_find? (doc : List String) (f : String × Nat → Token)
    (t : String) :
    ((countsList doc).map (fun p => (p.1, f p))).find? (fun p => p.1 == t) =
      if t ∈ doc then some (t, f (t, doc.count t)) else none := by
  rw [List.find?_map]
  have hcomp : ((fun p : String × Token => p.1 == t) ∘
      (fun p : String × Nat => (p.1, f p))) =
      fun p : String × Nat => p.1 == t := rfl
  rw [hcomp, countsList_find?]
  by_cases hm : t ∈ doc
  · rw [if_pos hm, if_pos hm]
    rfl
  · rw [if_neg hm, if_neg hm]
    rfl

/-- C5: if, before `add_item`, the sum over all tokens of per-token up
(respectively down) counts equals `up_total_tokens` (respectively
`down_total_tokens`), the same equality holds after `add_item`; moreover the
persisted token table receives only each token's delta contributed by this
one document — under every key the stored count grows by exactly that
token's multiplicity in the voted direction (an additive on-conflict
update), independent of the in-memory totals. -/
theorem add_item_invariants (m : Model) (db : DbModel) (doc : List String)
    (v : Vote) (hm : (m.tokens.map Prod.fst).Nodup) :
    (sumUp m.tokens = m.up_total_tokens →
      sumUp (m.add_item db doc v).1.tokens =
        (m.add_item db doc v).1.up_total_tokens) ∧
    (sumDown m.tokens = m.down_total_tokens →
      sumDown (m.add_item db doc v).1.tokens =
        (m.add_item db doc v).1.down_total_tokens) ∧
    (∀ t, upOf (m.add_item db doc v).2.tokens t =
      upOf db.tokens t + (if v = Vote.UP then doc.count t else 0)) ∧
    (∀ t, downOf (m.add_item db doc v).2.tokens t =
      downOf db.tokens t + (if v = Vote.DOWN then doc.count t else 0)) := by
  cases v with
  | UP =>
    have hre : m.add_item db doc Vote.UP =
      ({ m with
          tokens := (countsList doc).foldl
            (fun l p => ddBumpUp l p.1 p.2) m.tokens,
          up_docs := m.up_docs + 1,
          up_total_tokens :=
            m.up_total_tokens + ((countsList doc).map Prod.snd).sum },
       { up_docs := m.up_docs + 1, down_docs := m.down_docs,
         up_total_tokens :=
           m.up_total_tokens + ((countsList doc).map Prod.snd).sum,
         down_total_tokens := m.down_total_tokens,
         tokens := ((countsList doc).map
             (fun p => (p.1, ({ up := p.2 } : Token)))).foldl
           (fun l p => sqlBumpToken l p.1 p.2) db.tokens }) := rfl
    rw [hre]
    obtain ⟨hnd', hsu, hsd⟩ := fold_ddBumpUp_sums (countsList doc) hm
    refine ⟨?_, ?_, ?_, ?_⟩
    · intro h
      show sumUp ((countsList doc).foldl (fun l p => ddBumpUp l p.1 p.2)
        m.tokens) = m.up_total_tokens + ((countsList doc).map Prod.snd).sum
      rw [hsu, h]
    · intro h
      show sumDown ((countsList doc).foldl (fun l p => ddBumpUp l p.1 p.2)
        m.tokens) = m.down_total_tokens
      rw [hsd, h]
    · intro t
      have hlook := (@fold_sqlBump_lookups
        ((countsList doc).map (fun p => (p.1, ({ up := p.2 } : Token))))
        db.tokens (keys_updated_map doc _) t).1
      show upOf (((countsList doc).map
          (fun p => (p.1, ({ up := p.2 } : Token)))).foldl
        (fun l p => sqlBumpToken l p.1 p.2) db.tokens) t = _
      rw [hlook, updated_find?, if_pos rfl]
      by_cases hmem : t ∈ doc
      · rw [if_pos hmem]
        rfl
      · rw [if_neg hmem, List.count_eq_zero.mpr hmem]
        rfl
    · intro t
      have hlook := (@fold_sqlBump_lookups
        ((countsList doc).map (fun p => (p.1, ({ up := p.2 } : Token))))
        db.tokens (keys_updated_map doc _) t).2
      show downOf (((countsList doc).map
          (fun p => (p.1, ({ up := p.2 } : Token)))).foldl
        (fun l p => sqlBumpToken l p.1 p.2) db.tokens) t = _
      rw [hlook, updated_find?]
      have hneq : ¬(Vote.UP = Vote.DOWN) := by intro hh; cases hh
      rw [if_neg hneq]
      by_cases hmem : t ∈ doc
      · rw [if_pos hmem]
        rfl
      · rw [if_neg hmem]
        rfl
  | DOWN =>
    have hre : m.add_item db doc Vote.DOWN =
      ({ m with
          tokens := (countsList doc).foldl
            (fun l p => ddBumpDown l p.1 p.2) m.tokens,
          down_docs := m.down_docs + 1,
          down_total_tokens :=
            m.down_total_tokens + ((countsList doc).map Prod.snd).sum },
       { up_docs := m.up_docs, down_docs := m.down_docs + 1,
         up_total_tokens := m.up_total_tokens,
         down_total_tokens :=
           m.down_total_tokens + ((countsList doc).map Prod.snd).sum,
         tokens := ((countsList doc).map
             (fun p => (p.1, ({ down := p.2 } : Token)))).foldl
           (fun l p => sqlBumpToken l p.1 p.2) db.tokens }) := rfl
    rw [hre]
    obtain ⟨hnd', hsd, hsu⟩ := fold_ddBumpDown_sums (countsList doc) hm
    refine ⟨?_, ?_, ?_, ?_⟩
    · intro h
      show sumUp ((countsList doc).foldl (fun l p => ddBumpDown l p.1 p.2)
        m.tokens) = m.up_total_tokens
      rw [hsu, h]
    · intro h
      show sumDown ((countsList doc).foldl (fun l p => ddBumpDown l p.1 p.2)
        m.tokens) = m.down_total_tokens + ((countsList doc).map Prod.snd).sum
      rw [hsd, h]
    · intro t
      have hlook := (@fold_sqlBump_lookups
        ((countsList doc).map (fun p => (p.1, ({ down := p.2 } : Token))))
        db.tokens (keys_updated_map doc _) t).1
      show upOf (((countsList doc).map
          (fun p => (p.1, ({ down := p.2 } : Token)))).foldl
        (fun l p => sqlBumpToken l p.1 p.2) db.tokens) t = _
      rw [hlook, updated_find?]
      have hneq : ¬(Vote.DOWN = Vote.UP) := by intro hh; cases hh
      rw [if_neg hneq]
      by_cases hmem : t ∈ doc
      · rw [if_pos hmem]
        rfl
      · rw [if_neg hmem]
        rfl
    · intro t
      have hlook := (@fold_sqlBump_lookups
        ((countsList doc).map (fun p => (p.1, ({ down := p.2 } : Token))))
        db.tokens (keys_updated_map doc _) t).2
      show downOf (((countsList doc).map
          (fun p => (p.1, ({ down := p.2 } : Token)))).foldl
        (fun l p => sqlBumpToken l p.1 p.2) db.tokens) t = _
      rw [hlook, updated_find?, if_pos rfl]
      by_cases hmem : t ∈ doc
      · rw [if_pos hmem]
        rfl
      · rw [if_neg hmem, List.count_eq_zero.mpr hmem]
        rfl

/-- Witness for C5 at a concrete model and document: the in-memory key set
is duplicate-free, and the persisted count under the document's token grows
by its multiplicity. -/
theorem add_item_invariants_witness :
    ((([("a", ⟨2, 0⟩)] : List (String × Token)).map Prod.fst).Nodup) ∧
    upOf (Model.add_item ⟨1, 0, 2, 0, [("a", ⟨2, 0⟩)]⟩
        ⟨1, 0, 2, 0, [("a", ⟨1, 0⟩)]⟩ ["a", "b", "a"] Vote.UP).2.tokens "a" =
      upOf ([("a", ⟨1, 0⟩)] : List (String × Token)) "a" +
        (if Vote.UP = Vote.UP then (["a", "b", "a"].count "a") else 0) := by
  have h := add_item_invariants ⟨1, 0, 2, 0, [("a", ⟨2, 0⟩)]⟩
    ⟨1, 0, 2, 0, [("a", ⟨1, 0⟩)]⟩ ["a", "b", "a"] Vote.UP (by decide)
  exact ⟨by decide, h.2.2.1 "a"⟩

/-! ## `Model.score` over the reals (C6, C7, C10)

Python floats are modelled by `ℝ`; `math.log` and `math.exp` by `Real.log`
and `Real.exp`. -/

/-- `sigmoid` (`scoring.py`): the numerically stable two-branch logistic. -/
noncomputable def sigmoid (z : ℝ) : ℝ :=
  if 0 ≤ z then 1 / (1 + Real.exp (-z)) else Real.exp z / (1 + Real.exp z)

/-- The log-odds accumulated by `Model.score` before the sigmoid; the local
names `V`, `up_denom`, `down_denom` of the source are inlined, and the loop
over `Counter` items is the sum over `countsList doc`.  An unseen token
contributes with the default `Token()` (both counts `0`), exactly the
`self.tokens.get(text)` fallback. -/
noncomputable def scoreZ (m : Model) (doc : List String) (α β : ℝ) : ℝ :=
  Real.log ((m.up_docs + β) / (m.down_docs + β)) +
    ((countsList doc).map (fun p =>
      (p.2 : ℝ) *
        (Real.log ((((dictGet m.tokens p.1).getD {}).up + α) /
            (m.up_total_tokens + α * (max m.vocabulary_size 1 : ℕ))) -
         Real.log ((((dictGet m.tokens p.1).getD {}).down + α) /
            (m.down_total_tokens + α * (max m.vocabulary_size 1 : ℕ)))))).sum

/-- `Model.score` (`scoring.py`), on the already-tokenized input. -/
noncomputable def Model.score (m : Model) (doc : List String) (α β : ℝ) : ℝ :=
  sigmoid (scoreZ m doc α β)

theorem sigmoid_pos (z : ℝ) : 0 < sigmoid z := by
  unfold sigmoid
  split <;> positivity

theorem sigmoid_lt_one (z : ℝ) : sigmoid z < 1 := by
  unfold sigmoid
  split
  · rw [div_lt_one (by positivity)]
    have := Real.exp_pos (-z)
    linarith
  · rw [div_lt_one (by positivity)]
    linarith

theorem sigmoid_eq (z : ℝ) : sigmoid z = 1 / (1 + Real.exp (-z)) := by
  unfold sigmoid
  split
  · rfl
  · rw [div_eq_div_iff (by positivity) (by positivity)]
    have hz : Real.exp z * Real.exp (-z) = 1 := by
      rw [← Real.exp_add]
      simp
    ring_nf
    nlinarith [hz]

theorem sigmoid_lt_sigmoid {z₁ z₂ : ℝ} (h : z₁ < z₂) :
    sigmoid z₁ < sigmoid z₂ := by
  rw [sigmoid_eq, sigmoid_eq]
  apply div_lt_div_of_pos_left one_pos (by positivity)
  have := Real.exp_lt_exp.mpr (neg_lt_neg h)
  linarith

/-- C6: for every model state (empty vocabulary and all-zero counters
included) and every finite token sequence (the empty one included), with
positive smoothing parameters, `score` lies strictly between 0 and 1. -/
theorem score_in_open_unit (m : Model) (doc : List String) (α β : ℝ)
    (hα : 0 < α) (hβ : 0 < β) :
    0 < m.score doc α β ∧ m.score doc α β < 1 :=
  ⟨sigmoid_pos _, sigmoid_lt_one _⟩

/-- Witness for C6 at the all-zero model and the empty sequence. -/
theorem score_in_open_unit_witness :
    (0:ℝ) < 1 ∧
    (0 < Model.score ⟨0, 0, 0, 0, []⟩ [] 1 1 ∧
      Model.score ⟨0, 0, 0, 0, []⟩ [] 1 1 < 1) :=
  ⟨by norm_num,
    score_in_open_unit ⟨0, 0, 0, 0, []⟩ [] 1 1 (by norm_num) (by norm_num)⟩

theorem sum_lt_sum_of_exists {γ : Type} (l : List γ) (f g : γ → ℝ)
    (hle : ∀ a ∈ l, f a ≤ g a) (hex : ∃ a ∈ l, f a < g a) :
    (l.map f).sum < (l.map g).sum := by
  induction l with
  | nil =>
    obtain ⟨a, ha, _⟩ := hex
    cases ha
  | cons b rest ih =>
    rw [List.map_cons, List.map_cons, List.sum_cons, List.sum_cons]
    rcases hex with ⟨a, hmem, hq⟩
    rcases List.mem_cons.mp hmem with rfl | hmem2
    · have hr : (rest.map f).sum ≤ (rest.map g).sum :=
        List.sum_le_sum (fun i hi => hle i (List.mem_cons_of_mem _ hi))
      exact add_lt_add_of_lt_of_le hq hr
    · have hb := hle b (List.mem_cons_self _ _)
      have hrec := ih (fun x hx => hle x (List.mem_cons_of_mem _ hx))
        ⟨a, hmem2, hq⟩
      exact add_lt_add_of_le_of_lt hb hrec

/-- The model with token `t`'s up count set to `u` and everything else —
including the totals and the vocabulary — unchanged. -/
def Model.withTokUp (m : Model) (t : String) (u : Nat) : Model :=
  { m with tokens := m.tokens.map (fun p =>
      if p.1 == t then (p.1, { p.2 with up := u }) else p) }

/-- C7: for a fixed vocabulary and fixed positive `α`, `β`, raising a
token's upvote count while holding every other piece of model state equal
strictly increases the score of every document containing that token. -/
theorem score_strictMono_in_token_up (m : Model) (doc : List String)
    (t : String) (u : Nat) (tok : Token) (α β : ℝ)
    (hlk : dictGet m.tokens t = some tok) (hu : tok.up < u)
    (hmem : t ∈ doc) (hα : 0 < α) (hβ : 0 < β) :
    m.score doc α β < (m.withTokUp t u).score doc α β := by
  unfold Model.score
  apply sigmoid_lt_sigmoid
  unfold scoreZ
  have hV : (Model.withTokUp m t u).vocabulary_size = m.vocabulary_size :=
    List.length_map _ _
  rw [show (Model.withTokUp m t u).up_docs = m.up_docs from rfl,
    show (Model.withTokUp m t u).down_docs = m.down_docs from rfl,
    show (Model.withTokUp m t u).up_total_tokens = m.up_total_tokens from rfl,
    show (Model.withTokUp m t u).down_total_tokens = m.down_total_tokens
      from rfl, hV]
  apply add_lt_add_left
  have hVpos : (0:ℝ) < (max m.vocabulary_size 1 : ℕ) := by
    rw [Nat.cast_pos]
    exact lt_of_lt_of_le one_pos (le_max_right _ _)
  have hdenup : (0:ℝ) <
      m.up_total_tokens + α * (max m.vocabulary_size 1 : ℕ) := by
    have := mul_pos hα hVpos
    positivity
  have hdendn : (0:ℝ) <
      m.down_total_tokens + α * (max m.vocabulary_size 1 : ℕ) := by
    have := mul_pos hα hVpos
    positivity
  have hget : ∀ s, dictGet (Model.withTokUp m t u).tokens s =
      if s = t then (dictGet m.tokens s).map
        (fun x => { x with up := u }) else dictGet m.tokens s :=
    fun s => dictGet_map_bump (fun x => { x with up := u }) m.tokens t s
  have hstrict : ∀ c : Nat, 0 < c →
      (c : ℝ) *
        (Real.log ((((dictGet m.tokens t).getD {}).up + α) /
            (m.up_total_tokens + α * (max m.vocabulary_size 1 : ℕ))) -
         Real.log ((((dictGet m.tokens t).getD {}).down + α) /
            (m.down_total_tokens + α * (max m.vocabulary_size 1 : ℕ)))) <
      (c : ℝ) *
        (Real.log ((((dictGet (Model.withTokUp m t u).tokens t).getD {}).up
              + α) /
            (m.up_total_tokens + α * (max m.vocabulary_size 1 : ℕ))) -
         Real.log ((((dictGet (Model.withTokUp m t u).tokens t).getD {}).down
              + α) /
            (m.down_total_tokens + α * (max m.vocabulary_size 1 : ℕ)))) := by
    intro c hc
    rw [hget t, if_pos rfl, hlk]
    show (c : ℝ) * (Real.log ((tok.up + α) / _) - Real.log ((tok.down + α) / _))
      < (c : ℝ) * (Real.log ((u + α) / _) - Real.log ((tok.down + α) / _))
    apply mul_lt_mul_of_pos_left _ (by exact_mod_cast hc)
    apply sub_lt_sub_right
    apply Real.log_lt_log
    · apply div_pos _ hdenup
      positivity
    · rw [div_lt_div_iff_of_pos_right hdenup]
      have : (tok.up : ℝ) < u := by exact_mod_cast hu
      linarith
  apply sum_lt_sum_of_exists
  · intro p hp
    obtain ⟨s, hs, rfl⟩ := List.mem_map.mp hp
    by_cases hst : s = t
    · subst hst
      have hcpos : 0 < doc.count s := List.count_pos_iff.mpr
        (List.mem_dedup.mp hs)
      exact le_of_lt (hstrict _ hcpos)
    · rw [hget s, if_neg hst]
  · refine ⟨(t, doc.count t), List.mem_map.mpr
      ⟨t, List.mem_dedup.mpr hmem, rfl⟩, ?_⟩
    exact hstrict _ (List.count_pos_iff.mpr hmem)

/-- Witness for C7 at a one-token model: raising "a"'s up count from 1 to 2
strictly raises the score of the document ["a"]. -/
theorem score_strictMono_in_token_up_witness :
    dictGet ([("a", ⟨1, 1⟩)] : List (String × Token)) "a" = some ⟨1, 1⟩ ∧
    Model.score ⟨1, 1, 2, 2, [("a", ⟨1, 1⟩)]⟩ ["a"] 1 1 <
      Model.score (Model.withTokUp ⟨1, 1, 2, 2, [("a", ⟨1, 1⟩)]⟩ "a" 2)
        ["a"] 1 1 := by
  refine ⟨by decide, ?_⟩
  exact score_strictMono_in_token_up ⟨1, 1, 2, 2, [("a", ⟨1, 1⟩)]⟩ ["a"] "a" 2
    ⟨1, 1⟩ 1 1 (by decide) (by decide) (by decide) (by norm_num) (by norm_num)

/-- `dict.get` with its state effect made explicit: it returns the looked-up
value and the dictionary unchanged (unlike `defaultdict.__getitem__`, which
inserts a default — compare `ddBumpUp`). -/
def dictGetSt (l : List (String × Token)) (t : String) :
    Option Token × List (String × Token) :=
  ((l.find? (fun p => p.1 == t)).map Prod.snd, l)

/-- The token loop of `Model.score` with the token mapping threaded as state
through every `self.tokens.get(text)` call. -/
noncomputable def scoreStGo (ud dd α : ℝ) :
    List (String × Nat) → List (String × Token) → ℝ →
      ℝ × List (String × Token)
  | [], ml, acc => (acc, ml)
  | p :: rest, ml, acc =>
    let r := dictGetSt ml p.1
    let tok := r.1.getD {}
    scoreStGo ud dd α rest r.2
      (acc + (p.2 : ℝ) *
        (Real.log ((tok.up + α) / ud) - Real.log ((tok.down + α) / dd)))

/-- `Model.score` as a state transformer on the model (`scoring.py`): the
returned model carries the token mapping as left by the loop's lookups. -/
noncomputable def Model.scoreSt (m : Model) (doc : List String) (α β : ℝ) :
    ℝ × Model :=
  let res := scoreStGo
    (m.up_total_tokens + α * (max m.vocabulary_size 1 : ℕ))
    (m.down_total_tokens + α * (max m.vocabulary_size 1 : ℕ)) α
    (countsList doc) m.tokens
    (Real.log ((m.up_docs + β) / (m.down_docs + β)))
  (sigmoid res.1, { m with tokens := res.2 })

theorem scoreStGo_eq (ud dd α : ℝ) (counts : List (String × Nat)) :
    ∀ (ml : List (String × Token)) (acc : ℝ),
      scoreStGo ud dd α counts ml acc =
        (acc + (counts.map (fun p =>
          (p.2 : ℝ) *
            (Real.log ((((dictGet ml p.1).getD {}).up + α) / ud) -
             Real.log ((((dictGet ml p.1).getD {}).down + α) / dd)))).sum,
         ml) := by
  induction counts with
  | nil =>
    intro ml acc
    rw [scoreStGo, List.map_nil, List.sum_nil, add_zero]
  | cons p rest ih =>
    intro ml acc
    rw [scoreStGo, ih, List.map_cons, List.sum_cons]
    congr 1
    rw [add_assoc]
    rfl

/-- C10: scoring never modifies the model — the four counters and the token
mapping come back unchanged (looking up an unseen token does not insert an
entry, because `dict.get` never inserts), and the value equals the pure
`score`.  `score` performs no database access at all: its embedding takes
and returns no `DbModel`. -/
theorem score_no_mutation (m : Model) (doc : List String) (α β : ℝ) :
    (m.scoreSt doc α β).2 = m ∧
    (m.scoreSt doc α β).1 = m.score doc α β := by
  unfold Model.scoreSt
  rw [scoreStGo_eq]
  exact ⟨rfl, rfl⟩

/-! ## The ingestion loop `update_feeds` (`cli.py`) (C4) -/

/-- The outcome of the HTTP fetch for one subscription, as consumed by
`update_feeds`: either `httpx.get` raised `TimeoutException`, or a response
arrived with a status code, caching headers, and — consulted only on 200 —
the result of `Feed.from_xml` on its body. -/
inductive FetchOutcome where
  | timeout
  | response (status : Nat) (etag last_modified : Option String)
      (parsed : Except String Feed)

/-- `httpx.codes.OK`. -/
def statusOK : Nat := 200

/-- `httpx.codes.NOT_MODIFIED`. -/
def statusNotModified : Nat := 304

/-- `initial_score` (`cli.py`): `exp(-(count + eps))`, where `eps` is the
random jitter `0.1 * random.random()`, supplied here by an oracle. -/
noncomputable def initial_score (count : Nat) (eps : ℝ) : ℝ :=
  Real.exp (-((count : ℝ) + eps))

/-- `update_feeds` (`cli.py`): iterate the subscriptions with their fetch
outcomes.  A timeout is logged and skipped; 304 is skipped; on 200 the body
is parsed — a parse failure is re-raised and aborts the whole batch, a
success updates the feed's metadata and appends its items, scored by their
position within this feed's batch (the per-feed `items_per_feed` counter
starts at 0 for each feed); any other status is logged and skipped.
`eps i j` is the jitter drawn for item `j` of subscription `i`. -/
noncomputable def update_feeds (eps : Nat → Nat → ℝ) :
    Nat → List (DbFeed × FetchOutcome) →
      Except String (List DbFeed × List (Nat × ℝ × Item))
  | _, [] => Except.ok ([], [])
  | i, (feed, out) :: rest =>
    match out with
    | FetchOutcome.timeout =>
      (update_feeds eps (i + 1) rest).map (fun r => (feed :: r.1, r.2))
    | FetchOutcome.response status etag last_modified parsed =>
      if status = statusNotModified then
        (update_feeds eps (i + 1) rest).map (fun r => (feed :: r.1, r.2))
      else if status = statusOK then
        match parsed with
        | Except.error e => Except.error e
        | Except.ok body =>
          (update_feeds eps (i + 1) rest).map (fun r =>
            ((feed.update etag last_modified body) :: r.1,
             (body.items.enum.map (fun q =>
               (feed.id, initial_score q.1 (eps i q.1), q.2))) ++ r.2))
      else
        (update_feeds eps (i + 1) rest).map (fun r => (feed :: r.1, r.2))

theorem except_map_error_iff {γ δ : Type} {x : Except String γ}
    {f : γ → δ} :
    (∃ e, x.map f = Except.error e) ↔ (∃ e, x = Except.error e) := by
  cases x <;> simp [Except.map]

/-- C4: one batch of `update_feeds` raises exactly when some subscription's
fetch came back 200 and its body failed to parse; fetch timeouts and
non-200, non-304 statuses never abort the batch — with no parse failure the
pipeline returns normally whatever mixture of timeouts and failure statuses
occurred. -/
theorem update_feeds_error_iff (eps : Nat → Nat → ℝ) (i : Nat)
    (feeds : List (DbFeed × FetchOutcome)) :
    (∃ e, update_feeds eps i feeds = Except.error e) ↔
      (∃ fo ∈ feeds, ∃ etag lm e, fo.2 =
        FetchOutcome.response statusOK etag lm (Except.error e)) := by
  induction feeds generalizing i with
  | nil =>
    constructor
    · rintro ⟨e, he⟩
      rw [update_feeds] at he
      cases he
    · rintro ⟨fo, hmem, _⟩
      cases hmem
  | cons hd rest ih =>
    obtain ⟨feed, out⟩ := hd
    have hskip : ∀ g : List DbFeed × List (Nat × ℝ × Item) →
        List DbFeed × List (Nat × ℝ × Item),
        ((∃ e, (update_feeds eps (i + 1) rest).map g = Except.error e) ↔
          (∃ fo ∈ rest, ∃ etag lm e, fo.2 =
            FetchOutcome.response statusOK etag lm (Except.error e))) :=
      fun g => except_map_error_iff.trans (ih (i + 1))
    have hmemiff : ∀ P : DbFeed × FetchOutcome → Prop,
        (¬P (feed, out)) →
        ((∃ fo ∈ (feed, out) :: rest, P fo) ↔ (∃ fo ∈ rest, P fo)) := by
      intro P hnp
      constructor
      · rintro ⟨fo, hm, hx⟩
        rcases List.mem_cons.mp hm with rfl | hm2
        · exact absurd hx hnp
        · exact ⟨fo, hm2, hx⟩
      · rintro ⟨fo, hm, hx⟩
        exact ⟨fo, List.mem_cons_of_mem _ hm, hx⟩
    cases out with
    | timeout =>
      simp only [update_feeds]
      rw [hskip _]
      rw [hmemiff _ (by rintro ⟨et, lm, e, hx⟩; cases hx)]
    | response status etag lm parsed =>
      simp only [update_feeds]
      by_cases h304 : status = statusNotModified
      · rw [if_pos h304, hskip _]
        rw [hmemiff _ (by
          rintro ⟨et, lm', e, hx⟩
          injection hx with h1 _ _ _
          rw [h304] at h1
          cases h1)]
      · rw [if_neg h304]
        by_cases h200 : status = statusOK
        · rw [if_pos h200]
          subst h200
          cases parsed with
          | error e =>
            constructor
            · intro _
              exact ⟨(feed, FetchOutcome.response statusOK etag lm
                  (Except.error e)), List.mem_cons_self _ _, etag, lm, e, rfl⟩
            · intro _
              exact ⟨e, rfl⟩
          | ok body =>
            rw [hskip _]
            rw [hmemiff _ (by
              rintro ⟨et, lm', e, hx⟩
              injection hx with _ _ _ h4
              cases h4)]
        · rw [if_neg h200, hskip _]
          rw [hmemiff _ (by
            rintro ⟨et, lm', e, hx⟩
            injection hx with h1 _ _ _
            exact h200 h1)]

end Newsyacht
